import Mathlib

/-!
Verification development for the redux-nodes tree-to-reducer compiler.

The embedding models JavaScript values as trees tagged with allocation
identifiers, so that reference identity (`===` / `!==`) of objects is
expressible.  Primitives compare by value; objects compare by their
allocation id.  Shallow copies (`{...obj}`) allocate a fresh id while
reusing the children references, so "same reference" for a child that
was carried over verbatim is literal term equality in the model.

Sources embedded:
  * `src/unnamed/part_001` — `createNodes` (traverseTree, action
    creators, reducer with descending path splice) and the prebuilt
    node library (`value`, `num`, `toggle`, `dictionary`, `list`).
  * `src/src/index.ts` — `createStore` (traverseTree variant whose
    recursive call omits the callback argument, and reducer variant
    whose splice cursor never descends).
  * `src/src/nodes.ts` — prebuilt node handlers (same bodies as the
    part_001 node library).
  * the `buildNodes` iteration (whole-action reducers, bare
    single-node trees) is not present under `src/`; only its tests
    are.  Those parts are modelled from the spec and marked as such.
-/

namespace ReduxNodes

/-- A JavaScript value: a primitive (compared by value) or an object
carrying an allocation id (compared by reference, i.e. by id) and an
ordered field list. -/
inductive JVal where
  | prim : String → JVal
  | obj : Nat → List (String × JVal) → JVal
deriving Repr

/-- JavaScript strict equality `===` as used by the reducer's change
detection: primitives by value, objects by reference (allocation id). -/
def refEq : JVal → JVal → Bool
  | .prim a, .prim b => a == b
  | .obj i _, .obj j _ => i == j
  | _, _ => false

/-- Field lookup in an ordered field list (JS property read on an
object literal; first binding wins, mirroring unique JS keys). -/
def getField : List (String × JVal) → String → Option JVal
  | [], _ => none
  | (k, v) :: rest, key => if k = key then some v else getField rest key

/-- JS property assignment `obj[key] = v` on a field list: replaces the
binding in place if present, appends otherwise. -/
def setField : List (String × JVal) → String → JVal → List (String × JVal)
  | [], key, v => [(key, v)]
  | (k, w) :: rest, key, v =>
    if k = key then (key, v) :: rest else (k, w) :: setField rest key v

/-- One step of `aggr[key]`: only meaningful on objects; indexing
through a primitive is off the valid-path domain and yields `none`
(the JS code would produce `undefined`/throw there). -/
def indexKey : JVal → String → Option JVal
  | .obj _ fields, key => getField fields key
  | .prim _, _ => none

/-- `action[PATH].reduce((aggr, key) => aggr[key], currentState)` —
sequential key indexing from the root (part_001 line 77,
src/src/index.ts line 184). -/
def lookupPath : List String → JVal → Option JVal
  | [], st => some st
  | key :: rest, st => (indexKey st key).bind (lookupPath rest)

/-- An action handler `(value, ...payload) => value` (TAction). -/
def Handler : Type := JVal → List JVal → JVal

/-- The action payload record produced by a generated action creator:
`{ type, [PATH]: path, payload, [ACTION]: handler }` (part_001 lines
62-67).  `action = none` models an action object that does not carry
the internal `ACTION` marker (any external Redux action). -/
structure ActionPayload where
  type : String
  path : List String
  payload : List JVal
  action : Option Handler

/-- `Array.prototype.join('.')` on a list of strings. -/
def joinDot : List String → String
  | [] => ""
  | [s] => s
  | s :: rest => s ++ "." ++ joinDot rest

/-- `String.prototype.toUpperCase()` restricted to the ASCII range the
repository uses for action names. -/
def upperStr (s : String) : String :=
  String.mk (s.data.map Char.toUpper)

/-- The action type string `path.concat('@@' + key.toUpperCase()).join('.')`
(part_001 line 63, src/src/index.ts line 169). -/
def actionTypeOf (path : List String) (name : String) : String :=
  joinDot (path ++ ["@@" ++ upperStr name])

/-- The action creator generated for a node's declared action `name`
with handler `h` at `path` (part_001 lines 62-67). -/
def mkCreator (path : List String) (name : String) (h : Handler) :
    List JVal → ActionPayload :=
  fun payload =>
    { type := actionTypeOf path name
      path := path
      payload := payload
      action := some h }

/-- A state node (TNode): an initial value and the declared action
handlers. -/
structure NodeDef where
  value : JVal
  actions : List (String × Handler)

/-- A declared tree (TTree): an entry is either a Node (`node`) or a
nested mapping, written as its ordered field list (`nil` / `cons`).
The whole tree passed to `createNodes` is the field-list form; this
mirrors the runtime check `target[key][NODE]` distinguishing nodes
from plain objects. -/
inductive TreeT where
  | node : NodeDef → TreeT
  | nil : TreeT
  | cons : String → TreeT → TreeT → TreeT

/-- `traverseTree(nodes, node => node.value)` specialised to the state
extraction (part_001 lines 49-59): a node entry contributes its raw
value, any other entry becomes a freshly allocated nested object.
The `Nat` argument threads the allocation-id supply; a level's
container is allocated before its children, mirroring the `reduce`
accumulator being created at call entry.  A bare `node` in field-list
position is outside TTree and contributes nothing. -/
def stateOfFields : Nat → TreeT → List (String × JVal) × Nat
  | n, .node _ => ([], n)
  | n, .nil => ([], n)
  | n, .cons k (.node nd) rest =>
    let (fields, n') := stateOfFields n rest
    ((k, nd.value) :: fields, n')
  | n, .cons k sub rest =>
    let (inner, n1) := stateOfFields (n + 1) sub
    let (fields, n2) := stateOfFields n1 rest
    ((k, JVal.obj n inner) :: fields, n2)

/-- The compiled initial state of a tree (part_001 line 59): the
top-level container plus the extracted field list. -/
def initialState (ts : TreeT) (n : Nat) : JVal :=
  JVal.obj n (stateOfFields (n + 1) ts).1

/-- The actions tree produced by
`traverseTree(nodes, (node, path) => ...creators...)`: a node entry
becomes its per-action creator mapping (`leaf`), a nested mapping
becomes a nested object of creators (part_001 lines 60-71). -/
inductive ATree where
  | leaf : List (String × (List JVal → ActionPayload)) → ATree
  | nil : ATree
  | cons : String → ATree → ATree → ATree

/-- The creator mapping for one node at `path`
(`Object.keys(node.actions).reduce(...)`, part_001 lines 61-70). -/
def nodeCreators (nd : NodeDef) (path : List String) :
    List (String × (List JVal → ActionPayload)) :=
  nd.actions.map (fun kv => (kv.1, mkCreator path kv.1 kv.2))

/-- `traverseTree` specialised to the action-creator extraction,
carrying the accumulated path (part_001 lines 49-57 and 60-71). -/
def actionsOfFields : List String → TreeT → ATree
  | _, .node _ => .nil
  | _, .nil => .nil
  | path, .cons k (.node nd) rest =>
    .cons k (.leaf (nodeCreators nd (path ++ [k]))) (actionsOfFields path rest)
  | path, .cons k sub rest =>
    .cons k (actionsOfFields (path ++ [k]) sub) (actionsOfFields path rest)

/-- The full compiled action-creator tree (part_001 line 60). -/
def actionsOf (ts : TreeT) : ATree :=
  actionsOfFields [] ts

/-- Keyed lookup of an entry in the actions tree. -/
def aGet : ATree → String → Option ATree
  | .cons k t rest, key => if k = key then some t else aGet rest key
  | _, _ => none

/-- Indexing the compiled actions object along a path down to one
node's creator mapping (`actions.x.y.z`). -/
def creatorsAt : ATree → List String → Option (List (String × (List JVal → ActionPayload)))
  | _, [] => none
  | a, [k] =>
    match aGet a k with
    | some (.leaf crs) => some crs
    | _ => none
  | a, k :: rest =>
    match aGet a k with
    | some t => creatorsAt t rest
    | none => none

/-- Lookup in a creator mapping / an association list keyed by strings. -/
def assocGet {β : Type _} : List (String × β) → String → Option β
  | [], _ => none
  | (k, v) :: rest, key => if k = key then some v else assocGet rest key

/-- Keyed lookup of an entry in a declared tree's field list. -/
def fieldsGet : TreeT → String → Option TreeT
  | .cons k t rest, key => if k = key then some t else fieldsGet rest key
  | _, _ => none

/-- The node addressed by a path in the declared tree. -/
def nodeAt : TreeT → List String → Option NodeDef
  | _, [] => none
  | ts, [k] =>
    match fieldsGet ts k with
    | some (.node nd) => some nd
    | _ => none
  | ts, k :: rest =>
    match fieldsGet ts k with
    | some t => nodeAt t rest
    | none => none

/-! ### The part_001 reducer (createNodes, lines 72-93)

`newState = {...currentState}` followed by the descending loop

```
action[PATH].forEach((key, index) => {
  currentStateLevel = currentStateLevel[key] =
    index === action[PATH].length - 1 ? newValue : { ...currentStateLevel[key] };
});
```

which shallow-copies every container along the path and assigns the
new leaf value at the last key.  `fresh` supplies allocation ids for
the copies (the top copy takes `fresh`, each deeper copy the next id).
The splice is only reached on states where the path resolved, so
off-domain shapes return `none` (where the JS code would throw). -/

/-- The descending copy-and-assign loop of the part_001 reducer. -/
def splicePath : Nat → JVal → List String → JVal → Option JVal
  | fresh, .obj _ fields, [], _ =>
    -- empty path: `{...currentState}` with no assignment performed
    some (.obj fresh fields)
  | fresh, .obj _ fields, [k], newVal =>
    some (.obj fresh (setField fields k newVal))
  | fresh, .obj _ fields, k :: rest, newVal => do
    let child ← getField fields k
    let child' ← splicePath (fresh + 1) child rest newVal
    some (.obj fresh (setField fields k child'))
  | _, .prim _, _, _ => none

/-- The reducer returned by `createNodes` (part_001 lines 72-93):
pass-through when the action has no `ACTION` marker; otherwise resolve
the path, run the handler, and either return the input state (no
reference change) or splice the new value in along the path. -/
def reduce (fresh : Nat) (currentState : JVal) (a : ActionPayload) : Option JVal :=
  match a.action with
  | none => some currentState
  | some h =>
    match lookupPath a.path currentState with
    | none => none
    | some value =>
      let newValue := h value a.payload
      if refEq value newValue then some currentState
      else splicePath fresh currentState a.path newValue

/-! ### The src/src/index.ts reducer (createStore, lines 179-199)

Same skeleton, but the loop reads

```
const currentStateLevel = newState as any;
action[PATH].forEach((key, index) => {
  currentStateLevel[key] = index === action[PATH].length - 1 ? newValue : { ...currentStateLevel[key] };
});
```

so the cursor never descends: every write lands on the top-level copy. -/

/-- `{...v}` of an object (allocation id `fresh`); spreading anything
else never arises on the states the claims range over. -/
def shallowCopy (fresh : Nat) : JVal → Option JVal
  | .obj _ fields => some (.obj fresh fields)
  | .prim _ => none

/-- The non-descending write loop of the createStore reducer: all
assignments are applied to the top-level copy's field list. -/
def ixWrites : Nat → List (String × JVal) → List String → JVal → Option (List (String × JVal))
  | _, fields, [], _ => some fields
  | _, fields, [k], newVal => some (setField fields k newVal)
  | fresh, fields, k :: rest, newVal => do
    let child ← getField fields k
    let child' ← shallowCopy fresh child
    ixWrites (fresh + 1) (setField fields k child') rest newVal

/-- The splice step of the createStore reducer (src/src/index.ts lines
189-195): shallow-copy the top level, then run the non-descending
write loop on it. -/
def ixSplice (fresh : Nat) (st : JVal) (path : List String) (newVal : JVal) : Option JVal :=
  match st with
  | .obj _ fields => (ixWrites (fresh + 1) fields path newVal).map (.obj fresh ·)
  | .prim _ => none

/-- The reducer passed to `createReduxStore` (src/src/index.ts lines
179-199). -/
def ixReduce (fresh : Nat) (currentState : JVal) (a : ActionPayload) : Option JVal :=
  match a.action with
  | none => some currentState
  | some h =>
    match lookupPath a.path currentState with
    | none => none
    | some value =>
      let newValue := h value a.payload
      if refEq value newValue then some currentState
      else ixSplice fresh currentState a.path newValue

/-! ### The src/src/index.ts traverseTree (createStore, lines 156-162)

```
function traverseTree(target, cb, path = []) {
  return Object.keys(target).reduce((aggr, key) => {
    aggr[key] = target[key][NODE] ? cb(target[key], path.concat(key)) : traverseTree(target[key], path.concat(key));
    return aggr;
  }, {});
}
```

The recursive call omits `cb`, so inside a sub-tree the callback slot
holds the extended path array; reaching a node there calls that array
as a function and throws a `TypeError`.  `broken = true` marks that
state; `none` models the thrown exception.  Allocation ids of the
containers built here are never compared by any claim, so they are
all taken as `0`. -/
def ixBuildFields : Bool → TreeT → Option (List (String × JVal))
  | _, .node _ => some []
  | _, .nil => some []
  | broken, .cons k (.node nd) rest =>
    if broken then none
    else (ixBuildFields broken rest).map (fun fields => (k, nd.value) :: fields)
  | broken, .cons k sub rest => do
    let inner ← ixBuildFields true sub
    let fields ← ixBuildFields broken rest
    some ((k, JVal.obj 0 inner) :: fields)

/-- `traverseTree(tree, node => node.value)` as executed by
`createStore` (src/src/index.ts line 164). -/
def ixInitialState (ts : TreeT) : Option JVal :=
  (ixBuildFields false ts).map (JVal.obj 0)

/-! ### Prebuilt node handlers (src/src/nodes.ts; identical bodies in
the part_001 node library) -/

/-- `increment: (val, by = 1) => val + by` (src/src/nodes.ts line 20).
A missing argument is the `none` case and takes the default. -/
def numIncrement (val : Int) (amt : Option Int) : Int :=
  val + amt.getD 1

/-- `decrement: (val, by = -1) => val + by` (src/src/nodes.ts line 21). -/
def numDecrement (val : Int) (amt : Option Int) : Int :=
  val + amt.getD (-1)

/-- `Array.prototype.indexOf`: index of the first strictly-equal
element, `-1` when absent. -/
def jsIndexOf {α : Type _} [DecidableEq α] : List α → α → Int
  | [], _ => -1
  | a :: rest, x =>
    if a = x then 0
    else if jsIndexOf rest x < 0 then -1 else jsIndexOf rest x + 1

/-- The actual start index of `Array.prototype.splice`: a negative
`start` counts back from the end and clamps at `0`; a non-negative
one clamps at the length. -/
def jsSpliceStart (len : Nat) (start : Int) : Nat :=
  if start < 0 then (max ((len : Int) + start) 0).toNat else min start.toNat len

/-- The elements removed (and returned) by
`Array.prototype.splice(start, deleteCount)`: at most
`len - actualStart` elements from the actual start index. -/
def jsSpliceRemoved {α : Type _} (l : List α) (start : Int) (deleteCount : Nat) : List α :=
  (l.drop (jsSpliceStart l.length start)).take
    (min deleteCount (l.length - jsSpliceStart l.length start))

/-- `add: (curr, item) => curr.concat(item)` (src/src/nodes.ts line 45). -/
def listAdd {α : Type _} (curr : List α) (item : α) : List α :=
  curr ++ [item]

/-- `remove: (curr, item) => curr.slice(0).splice(curr.indexOf(item), 1)`
(src/src/nodes.ts line 46): `slice(0)` copies the array, `splice`
mutates the copy, and the handler's result is the value of the
`splice` expression — the array of removed elements. -/
def listRemove {α : Type _} [DecidableEq α] (curr : List α) (item : α) : List α :=
  jsSpliceRemoved curr (jsIndexOf curr item) 1

/-! ### The buildNodes iteration (whole-action reducers, bare
single-node trees)

The `buildNodes` implementation is exercised by
`src/src/__tests__/index.ts` but its own source is not under `src/`;
the definitions below are modelled from the spec (sections 4.1-4.3)
and are marked as such. -/

/-- Modelled from the spec: a whole-action reducer, "a function taking
the node's current value and the *full* dispatched action" (section 3),
whose returned value is adopted through the section 4.2 updater. -/
def WholeReducer : Type := JVal → ActionPayload → JVal

/-- Modelled from the spec: a node of the buildNodes iteration —
value, declared action handlers, and an optional whole-action
reducer (section 3, "optional `reducer`"). -/
structure RNode where
  value : JVal
  actions : List (String × Handler)
  reducer : Option WholeReducer

/-- Modelled from the spec: a buildNodes tree entry — a Node or a
nested mapping written as its ordered field list; the tree "may
itself be a single bare Node (no wrapping keys)" (section 4.1). -/
inductive TreeR where
  | node : RNode → TreeR
  | nil : TreeR
  | cons : String → TreeR → TreeR → TreeR

/-- Modelled from the spec: the action type of the buildNodes
iteration — path plus action name joined by the separator, with no
extra marking ("top-level single-node trees use just the action name
with no leading separator", section 4.1; the tests match on types like
`test.bar.changeFoo`). -/
def rActionTypeOf (path : List String) (name : String) : String :=
  joinDot (path ++ [name])

/-- Modelled from the spec: the action creator generated for a
buildNodes node's action, carrying the path and handler internally
(section 4.1). -/
def mkCreatorR (path : List String) (name : String) (h : Handler) :
    List JVal → ActionPayload :=
  fun payload =>
    { type := rActionTypeOf path name
      path := path
      payload := payload
      action := some h }

/-- Modelled from the spec: the creator mapping of one buildNodes
node at `path`. -/
def rNodeCreators (nd : RNode) (path : List String) :
    List (String × (List JVal → ActionPayload)) :=
  nd.actions.map (fun kv => (kv.1, mkCreatorR path kv.1 kv.2))

/-- Modelled from the spec: field-list part of the buildNodes
initial-state walk — "Trees become nested records, Nodes become their
raw value" (section 3).  The `Nat` argument threads allocation ids
for the containers. -/
def bStateOfFields : Nat → TreeR → List (String × JVal) × Nat
  | n, .node _ => ([], n)
  | n, .nil => ([], n)
  | n, .cons k (.node nd) rest =>
    let (fields, n') := bStateOfFields n rest
    ((k, nd.value) :: fields, n')
  | n, .cons k sub rest =>
    let (inner, n1) := bStateOfFields (n + 1) sub
    let (fields, n2) := bStateOfFields n1 rest
    ((k, JVal.obj n inner) :: fields, n2)

/-- Modelled from the spec: the initial state compiled by buildNodes;
a bare Node root yields "the node's own value ... directly, not
wrapped in an object" (section 4.1), any other root is a container. -/
def bStateOf : Nat → TreeR → JVal × Nat
  | n, .node nd => (nd.value, n)
  | n, t =>
    let (fields, n') := bStateOfFields (n + 1) t
    (JVal.obj n fields, n')

/-- Modelled from the spec: the whole-reducer collection — "if a node
declares a reducer, record `{path, reducerFn}`; this list is flattened
across the whole tree ... in traversal order" (section 4.1). -/
def collectReducers : List String → TreeR → List (List String × WholeReducer)
  | path, .node nd =>
    match nd.reducer with
    | some r => [(path, r)]
    | none => []
  | _, .nil => []
  | path, .cons k t rest =>
    collectReducers (path ++ [k]) t ++ collectReducers path rest

/-- Keyed lookup of an entry in a buildNodes tree's field list. -/
def rFieldsGet : TreeR → String → Option TreeR
  | .cons k t rest, key => if k = key then some t else rFieldsGet rest key
  | _, _ => none

/-- Modelled from the spec: auxiliary walk for `rCreatorsAt`,
carrying the accumulated path. -/
def rCreatorsAtAux : TreeR → List String → List String → Option (List (String × (List JVal → ActionPayload)))
  | .node nd, pre, [] => some (rNodeCreators nd pre)
  | _, _, [] => none
  | t, pre, k :: rest =>
    match rFieldsGet t k with
    | some t' => rCreatorsAtAux t' (pre ++ [k]) rest
    | none => none

/-- Modelled from the spec: the buildNodes creator mapping reached
from a path; for a bare Node root the creators are "the node's own
... actions directly, not wrapped in an object" (section 4.1), i.e.
the empty path addresses them. -/
def rCreatorsAt (t : TreeR) (p : List String) :
    Option (List (String × (List JVal → ActionPayload))) :=
  rCreatorsAtAux t [] p

/-- Modelled from the spec: the section 4.2 updater
`update(state, path, mutateFn)`: resolve the value at the path, keep
the original state on a reference-identical result, otherwise splice
the new value in (for the empty path "the new top-level state *is*
the new leaf value itself"). -/
def specUpdate (fresh : Nat) (st : JVal) (path : List String) (f : JVal → JVal) : Option JVal :=
  match lookupPath path st with
  | none => none
  | some v =>
    let nv := f v
    if refEq v nv then some st
    else
      match path with
      | [] => some nv
      | _ :: _ => splicePath fresh st path nv

/-- Modelled from the spec: one whole-reducer step of the dispatch
reducer — "apply 4.2's updater at that path with the mutate callback
'invoke `reducerFn` with the current value at that path and the full
action object'" (section 4.3).  The accumulator threads the state and
the allocation-id supply; a `none` state propagates. -/
def applyWholeStep (a : ActionPayload) :
    Option JVal × Nat → List String × WholeReducer → Option JVal × Nat
  | (none, n), _ => (none, n)
  | (some st, n), (p, r) => (specUpdate n st p (fun v => r v a), n + p.length + 1)

/-- Modelled from the spec: the own-action step of the dispatch
reducer (section 4.3) — when the action carries a handler, apply the
section 4.2 updater at the action's path with "invoke the attached
handler with the current value and the action's payload arguments";
an action without the handler marker is a pass-through. -/
def specOwnStep (fresh : Nat) (st : JVal) (a : ActionPayload) : Option JVal :=
  match a.action with
  | none => some st
  | some h => specUpdate fresh st a.path (fun v => h v a.payload)

/-- Modelled from the spec: the buildNodes dispatch reducer
(section 4.3) — first the action's own path-scoped update, then every
collected `{path, reducerFn}` pair in declaration order, each seeing
the state as left by the previous step. -/
def specDispatch (fresh : Nat) (rs : List (List String × WholeReducer))
    (st : JVal) (a : ActionPayload) : Option JVal :=
  (rs.foldl (applyWholeStep a) (specOwnStep fresh st a, fresh + a.path.length + 1)).1

/-! ### Supporting lemmas -/

/-- The `set` handler of the `value` node
(`set: (_, newValue) => newValue`, src/src/nodes.ts line 14), used as
a concrete handler in witnesses; the payload's first element is the
new value. -/
def setHandler : Handler := fun _ payload => payload.headD (.prim "undefined")

/-- Concrete run of C1 on the two-node tree of the repository's own
tests: dispatching `actions.test.bar.set('blip')` from the compiled
initial state lands `'blip'` at `state.test.bar`. -/
def wNode : NodeDef := ⟨.prim "baz", [("set", setHandler)]⟩

/-- The tree `{foo: value('bar'), test: {bar: value('baz')}}` used by
the repository's tests, restricted to the `set` action. -/
def wTree : TreeT :=
  .cons "foo" (.node ⟨.prim "bar", [("set", setHandler)]⟩)
    (.cons "test" (.cons "bar" (.node wNode) .nil) .nil)

/-- The node `{value: 'v', actions: {w: set}}` placed at path
`[x, y, z]` in the counterexample tree. -/
def c5Node : NodeDef := ⟨.prim "v", [("w", setHandler)]⟩

/-- The three-level tree `{x: {y: {z: Node}}}` whose node declares an
action named `w`. -/
def c5Tree : TreeT :=
  .cons "x" (.cons "y" (.cons "z" (.node c5Node) .nil) .nil) .nil

/-- The bare node `node({foo:'bar'}, {changeBar})` of the
repository's `buildNodes` tests, with the handler modelled as `set`. -/
def wRNode : RNode := ⟨.prim "bar", [("changeBar", setHandler)], none⟩

/-- A concrete whole-action reducer for the C3 witness: reacts to any
action by producing a fresh primitive value. -/
def wWholeReducer : WholeReducer := fun _ _ => JVal.prim "reacted"


theorem getField_setField_self (f : List (String × JVal)) (k : String) (v : JVal) :
    getField (setField f k v) k = some v := by
  induction f with
  | nil => simp [setField, getField]
  | cons kv rest ih =>
    obtain ⟨k1, v1⟩ := kv
    by_cases hk : k1 = k
    · simp [setField, getField, hk]
    · simp [setField, getField, hk, ih]

theorem getField_setField_ne (f : List (String × JVal)) (k s : String) (v : JVal)
    (hne : s ≠ k) : getField (setField f k v) s = getField f s := by
  have hne' : k ≠ s := Ne.symm hne
  induction f with
  | nil => simp [setField, getField, hne']
  | cons kv rest ih =>
    obtain ⟨k1, v1⟩ := kv
    by_cases hk : k1 = k
    · subst hk
      simp [setField, getField, hne']
    · by_cases hs : k1 = s
      · simp [setField, getField, hk, hs, hne, hne']
      · simp [setField, getField, hk, hs, ih]

/-- Along a resolvable non-empty path, the part_001 splice succeeds
and indexing that path in its result reaches exactly the new value. -/
theorem splicePath_lookup :
    ∀ (p : List String) (st v nv : JVal) (fresh : Nat),
      p ≠ [] → lookupPath p st = some v →
      ∃ st', splicePath fresh st p nv = some st' ∧ lookupPath p st' = some nv
  | [], _, _, _, _, hne, _ => absurd rfl hne
  | [k], st, v, nv, fresh, _, hlook => by
    cases st with
    | prim s => simp [lookupPath, indexKey] at hlook
    | obj id fields =>
      refine ⟨.obj fresh (setField fields k nv), by simp [splicePath], ?_⟩
      simp [lookupPath, indexKey, getField_setField_self]
  | k :: k' :: rest, st, v, nv, fresh, _, hlook => by
    cases st with
    | prim s => simp [lookupPath, indexKey] at hlook
    | obj id fields =>
      simp only [lookupPath, indexKey, Option.bind_eq_bind] at hlook
      cases hchild : getField fields k with
      | none => rw [hchild] at hlook; simp at hlook
      | some child =>
        rw [hchild] at hlook
        simp only [Option.some_bind] at hlook
        obtain ⟨child', hsp, hlk⟩ :=
          splicePath_lookup (k' :: rest) child v nv (fresh + 1) (by simp) hlook
        refine ⟨.obj fresh (setField fields k child'), ?_, ?_⟩
        · simp [splicePath, hchild, hsp]
        · simpa [lookupPath, indexKey, getField_setField_self] using hlk

/-- Frame property of the part_001 splice: any path that leaves the
spliced path at position `i` (same first `i` keys, then a different
key) resolves to the identical value — the identical reference —
before and after the splice. -/
theorem splicePath_frame :
    ∀ (p : List String) (st st' nv : JVal) (fresh : Nat),
      splicePath fresh st p nv = some st' →
      ∀ (i : Nat) (s : String) (hi : i < p.length), s ≠ p.get ⟨i, hi⟩ →
      lookupPath (p.take i ++ [s]) st' = lookupPath (p.take i ++ [s]) st
  | [], _, _, _, _, _, i, s, hi, _ => by simp at hi
  | [k], st, st', nv, fresh, hsp, i, s, hi, hs => by
    cases st with
    | prim _ => simp [splicePath] at hsp
    | obj id fields =>
      simp only [splicePath, Option.some.injEq] at hsp
      subst hsp
      cases i with
      | zero =>
        simp [lookupPath, indexKey,
          getField_setField_ne fields k s nv (by simpa using hs)]
      | succ j => exact absurd hi (by simp)
  | k :: k' :: rest, st, st', nv, fresh, hsp, i, s, hi, hs => by
    cases st with
    | prim _ => simp [splicePath] at hsp
    | obj id fields =>
      simp only [splicePath, Option.bind_eq_bind] at hsp
      cases hchild : getField fields k with
      | none => rw [hchild] at hsp; simp at hsp
      | some child =>
        rw [hchild] at hsp
        simp only [Option.some_bind] at hsp
        cases hsp' : splicePath (fresh + 1) child (k' :: rest) nv with
        | none => rw [hsp'] at hsp; simp at hsp
        | some child' =>
          rw [hsp'] at hsp
          simp only [Option.some_bind, Option.some.injEq] at hsp
          subst hsp
          cases i with
          | zero =>
            simp [lookupPath, indexKey,
              getField_setField_ne fields k s child' (by simpa using hs)]
          | succ j =>
            have hj : j < (k' :: rest).length := by simpa using hi
            have hrec := splicePath_frame (k' :: rest) child child' nv (fresh + 1)
              hsp' j s hj (by simpa using hs)
            simp only [List.take, List.cons_append, lookupPath, indexKey,
              getField_setField_self, hchild, Option.some_bind]
            exact hrec

/-- Keyed lookup in the compiled actions tree mirrors keyed lookup in
the declared tree, one level at a time. -/
theorem aGet_actionsOfFields :
    ∀ (ts : TreeT) (pre : List String) (k : String),
      aGet (actionsOfFields pre ts) k =
        match fieldsGet ts k with
        | none => none
        | some (.node nd) => some (.leaf (nodeCreators nd (pre ++ [k])))
        | some t => some (actionsOfFields (pre ++ [k]) t)
  | .node _, _, _ => by simp [actionsOfFields, aGet, fieldsGet]
  | .nil, _, _ => by simp [actionsOfFields, aGet, fieldsGet]
  | .cons k' (.node nd) rest, pre, k => by
    by_cases hk : k' = k
    · subst hk
      simp [actionsOfFields, aGet, fieldsGet]
    · simp only [actionsOfFields, aGet, fieldsGet, if_neg hk]
      exact aGet_actionsOfFields rest pre k
  | .cons k' .nil rest, pre, k => by
    by_cases hk : k' = k
    · subst hk
      simp [actionsOfFields, aGet, fieldsGet]
    · simp only [actionsOfFields, aGet, fieldsGet, if_neg hk]
      exact aGet_actionsOfFields rest pre k
  | .cons k' (.cons k'' t' rest') rest, pre, k => by
    by_cases hk : k' = k
    · subst hk
      simp [actionsOfFields, aGet, fieldsGet]
    · simp only [actionsOfFields, aGet, fieldsGet, if_neg hk]
      exact aGet_actionsOfFields rest pre k

/-- A creator mapping has no sub-entries to index into. -/
theorem creatorsAt_leaf (crs : List (String × (List JVal → ActionPayload))) :
    ∀ (p : List String), creatorsAt (ATree.leaf crs) p = none
  | [] => rfl
  | [_] => by simp [creatorsAt, aGet]
  | _ :: _ :: _ => by simp [creatorsAt, aGet]

/-- A node entry holds no deeper nodes. -/
theorem nodeAt_node (nd : NodeDef) :
    ∀ (p : List String), nodeAt (TreeT.node nd) p = none
  | [] => rfl
  | [_] => by simp [nodeAt, fieldsGet]
  | _ :: _ :: _ => by simp [nodeAt, fieldsGet]

/-- The action-creator walk turns a `cons` tree level into a `cons`
actions level (never into a creator mapping). -/
theorem actionsOfFields_cons (path : List String) (k : String) (t rest : TreeT) :
    ∃ a₁ a₂, actionsOfFields path (TreeT.cons k t rest) = ATree.cons k a₁ a₂ := by
  cases t with
  | node nd => exact ⟨_, _, rfl⟩
  | nil => exact ⟨_, _, rfl⟩
  | cons k' t' rest' => exact ⟨_, _, rfl⟩

/-- Indexing the compiled actions object along a non-empty path
reaches exactly the creator mapping of the node the declared tree
holds at that path, with the creators qualified by the accumulated
path. -/
theorem creatorsAt_actionsOfFields :
    ∀ (p : List String) (ts : TreeT) (pre : List String),
      p ≠ [] →
      creatorsAt (actionsOfFields pre ts) p =
        (nodeAt ts p).map (fun nd => nodeCreators nd (pre ++ p))
  | [], _, _, hne => absurd rfl hne
  | [k], ts, pre, _ => by
    rw [show creatorsAt (actionsOfFields pre ts) [k] =
        (match aGet (actionsOfFields pre ts) k with
         | some (.leaf crs) => some crs
         | _ => none) from rfl]
    rw [aGet_actionsOfFields ts pre k]
    cases hf : fieldsGet ts k with
    | none => simp [nodeAt, hf]
    | some t => cases t with
      | node nd => simp [nodeAt, hf]
      | nil => simp [nodeAt, hf, actionsOfFields]
      | cons k'' t' rest' =>
        obtain ⟨a₁, a₂, ha⟩ := actionsOfFields_cons (pre ++ [k]) k'' t' rest'
        simp [nodeAt, hf, ha]
  | k :: k' :: rest, ts, pre, _ => by
    rw [show creatorsAt (actionsOfFields pre ts) (k :: k' :: rest) =
        (match aGet (actionsOfFields pre ts) k with
         | some t => creatorsAt t (k' :: rest)
         | none => none) from rfl]
    rw [aGet_actionsOfFields ts pre k]
    cases hf : fieldsGet ts k with
    | none => simp [nodeAt, hf]
    | some t => cases t with
      | node nd =>
        simp [nodeAt, hf, creatorsAt_leaf, nodeAt_node]
      | nil =>
        have := creatorsAt_actionsOfFields (k' :: rest) TreeT.nil (pre ++ [k]) (by simp)
        simp only [nodeAt, hf, this, List.append_assoc, List.cons_append,
          List.nil_append]
      | cons k'' t' rest' =>
        have := creatorsAt_actionsOfFields (k' :: rest) (TreeT.cons k'' t' rest')
          (pre ++ [k]) (by simp)
        simp only [nodeAt, hf, this, List.append_assoc, List.cons_append,
          List.nil_append]

/-- Looking an action name up in a node's creator mapping yields the
generated creator for that name. -/
theorem assocGet_nodeCreators (nd : NodeDef) (path : List String) (w : String) :
    assocGet (nodeCreators nd path) w =
      (assocGet nd.actions w).map (fun h => mkCreator path w h) := by
  show assocGet (nd.actions.map (fun kv => (kv.1, mkCreator path kv.1 kv.2))) w = _
  induction nd.actions with
  | nil => simp [assocGet]
  | cons kv rest ih =>
    obtain ⟨k1, h1⟩ := kv
    by_cases hk : k1 = w
    · subst hk
      simp [assocGet]
    · simp [assocGet, hk, ih]

/-- A node always sits at a non-empty path. -/
theorem nodeAt_ne_nil {ts : TreeT} {p : List String} {nd : NodeDef}
    (hnode : nodeAt ts p = some nd) : p ≠ [] := by
  intro hp
  subst hp
  simp [nodeAt] at hnode

/-- On paths of depth at most one — the only depth `createStore` can
produce, since its compile rejects nested trees — the
`src/src/index.ts` reducer agrees with the part_001 reducer: the two
differ only in whether the splice cursor descends, which is
observable from depth two onwards. -/
theorem ixReduce_eq_reduce_of_flat (fresh : Nat) (st : JVal) (a : ActionPayload)
    (hp : a.path.length ≤ 1) : ixReduce fresh st a = reduce fresh st a := by
  obtain ⟨t, p, args, act⟩ := a
  cases act with
  | none => rfl
  | some h =>
    cases p with
    | nil =>
      cases st with
      | prim s => simp [ixReduce, reduce, lookupPath, splicePath, ixSplice]
      | obj id fields =>
        simp [ixReduce, reduce, lookupPath, splicePath, ixSplice, ixWrites]
    | cons k rest =>
      cases rest with
      | nil =>
        cases st with
        | prim s => simp [ixReduce, reduce, lookupPath, indexKey]
        | obj id fields =>
          simp only [ixReduce, reduce]
          cases hlp : lookupPath [k] (JVal.obj id fields) with
          | none => rfl
          | some v =>
            simp [splicePath, ixSplice, ixWrites]
      | cons k' rest' =>
        simp at hp

/-! ### Claim theorems -/

/-- C1: for every compiled tree, node at path `p` and handler `h`
declared on it, dispatching the action produced by that node's
generated action creator, when `h` applied to the current value at `p`
and the arguments returns a value that is not reference-identical to
the current value, yields a state in which sequentially indexing the
keys of `p` from the root reaches exactly that value — the new leaf is
spliced in at the addressed path, for paths of any depth ≥ 1
(part_001 lines 60-93). -/
theorem claim_C1_own_action_splices_at_path
    (ts : TreeT) (p : List String) (w : String) (nd : NodeDef) (h : Handler)
    (args : List JVal) (st value : JVal) (fresh : Nat)
    (hnode : nodeAt ts p = some nd)
    (hact : assocGet nd.actions w = some h)
    (hlook : lookupPath p st = some value)
    (hchange : refEq value (h value args) = false) :
    ∃ st' : JVal,
      creatorsAt (actionsOf ts) p = some (nodeCreators nd p) ∧
      assocGet (nodeCreators nd p) w = some (mkCreator p w h) ∧
      reduce fresh st (mkCreator p w h args) = some st' ∧
      lookupPath p st' = some (h value args) := by
  have hdepth : p ≠ [] := nodeAt_ne_nil hnode
  obtain ⟨st', hsp, hlk⟩ :=
    splicePath_lookup p st value (h value args) fresh hdepth hlook
  refine ⟨st', ?_, ?_, ?_, hlk⟩
  · show creatorsAt (actionsOfFields [] ts) p = _
    rw [creatorsAt_actionsOfFields p ts [] hdepth, hnode]
    simp
  · rw [assocGet_nodeCreators, hact]
    rfl
  · simp [reduce, mkCreator, hlook, hchange, hsp]

theorem claim_C1_witness :
    nodeAt wTree ["test", "bar"] = some wNode ∧
    assocGet wNode.actions "set" = some setHandler ∧
    lookupPath ["test", "bar"] (initialState wTree 0) = some (.prim "baz") ∧
    refEq (.prim "baz") (setHandler (.prim "baz") [.prim "blip"]) = false ∧
    ∃ st' : JVal,
      creatorsAt (actionsOf wTree) ["test", "bar"] = some (nodeCreators wNode ["test", "bar"]) ∧
      assocGet (nodeCreators wNode ["test", "bar"]) "set" = some (mkCreator ["test", "bar"] "set" setHandler) ∧
      reduce 10 (initialState wTree 0) (mkCreator ["test", "bar"] "set" setHandler [.prim "blip"]) = some st' ∧
      lookupPath ["test", "bar"] st' = some (setHandler (.prim "baz") [.prim "blip"]) :=
  ⟨by simp [nodeAt, fieldsGet, wTree],
    by simp [assocGet, wNode],
    by simp [initialState, stateOfFields, wTree, wNode, lookupPath, indexKey, getField],
    by simp [refEq, setHandler],
    claim_C1_own_action_splices_at_path wTree ["test", "bar"] "set" wNode setHandler
      [.prim "blip"] (initialState wTree 0) (.prim "baz") 10
      (by simp [nodeAt, fieldsGet, wTree])
      (by simp [assocGet, wNode])
      (by simp [initialState, stateOfFields, wTree, wNode, lookupPath, indexKey, getField])
      (by simp [refEq, setHandler])⟩

/-- C2: dispatching an action created by a node's own action creator
at path `p` that changes that node's value leaves every sub-state off
`p` reference-identical: any path that follows the first `i` keys of
`p` and then a sibling key `s ≠ p[i]` resolves to the identical
reference before and after the dispatch — only the containers along
`p` are copied (part_001 lines 81-92). -/
theorem claim_C2_structural_sharing_off_path
    (ts : TreeT) (p : List String) (w : String) (nd : NodeDef) (h : Handler)
    (args : List JVal) (st value : JVal) (fresh : Nat)
    (hnode : nodeAt ts p = some nd)
    (hact : assocGet nd.actions w = some h)
    (hlook : lookupPath p st = some value)
    (hchange : refEq value (h value args) = false) :
    ∃ st' : JVal,
      creatorsAt (actionsOf ts) p = some (nodeCreators nd p) ∧
      assocGet (nodeCreators nd p) w = some (mkCreator p w h) ∧
      reduce fresh st (mkCreator p w h args) = some st' ∧
      ∀ (i : Nat) (s : String) (hi : i < p.length), s ≠ p.get ⟨i, hi⟩ →
        lookupPath (p.take i ++ [s]) st' = lookupPath (p.take i ++ [s]) st := by
  have hdepth : p ≠ [] := nodeAt_ne_nil hnode
  obtain ⟨st', hsp, _⟩ :=
    splicePath_lookup p st value (h value args) fresh hdepth hlook
  refine ⟨st', ?_, ?_, ?_, ?_⟩
  · show creatorsAt (actionsOfFields [] ts) p = _
    rw [creatorsAt_actionsOfFields p ts [] hdepth, hnode]
    simp
  · rw [assocGet_nodeCreators, hact]
    rfl
  · simp [reduce, mkCreator, hlook, hchange, hsp]
  · exact splicePath_frame p st st' (h value args) fresh hsp

theorem claim_C2_witness :
    nodeAt wTree ["test", "bar"] = some wNode ∧
    assocGet wNode.actions "set" = some setHandler ∧
    lookupPath ["test", "bar"] (initialState wTree 0) = some (.prim "baz") ∧
    refEq (.prim "baz") (setHandler (.prim "baz") [.prim "blip"]) = false ∧
    ∃ st' : JVal,
      creatorsAt (actionsOf wTree) ["test", "bar"] = some (nodeCreators wNode ["test", "bar"]) ∧
      assocGet (nodeCreators wNode ["test", "bar"]) "set" = some (mkCreator ["test", "bar"] "set" setHandler) ∧
      reduce 10 (initialState wTree 0) (mkCreator ["test", "bar"] "set" setHandler [.prim "blip"]) = some st' ∧
      ∀ (i : Nat) (s : String) (hi : i < (["test", "bar"] : List String).length),
        s ≠ (["test", "bar"] : List String).get ⟨i, hi⟩ →
        lookupPath ((["test", "bar"] : List String).take i ++ [s]) st' =
          lookupPath ((["test", "bar"] : List String).take i ++ [s]) (initialState wTree 0) :=
  ⟨by simp [nodeAt, fieldsGet, wTree],
    by simp [assocGet, wNode],
    by simp [initialState, stateOfFields, wTree, wNode, lookupPath, indexKey, getField],
    by simp [refEq, setHandler],
    claim_C2_structural_sharing_off_path wTree ["test", "bar"] "set" wNode setHandler
      [.prim "blip"] (initialState wTree 0) (.prim "baz") 10
      (by simp [nodeAt, fieldsGet, wTree])
      (by simp [assocGet, wNode])
      (by simp [initialState, stateOfFields, wTree, wNode, lookupPath, indexKey, getField])
      (by simp [refEq, setHandler])⟩

/-- C4: for every state and every action carrying the internal
handler reference, if the handler applied to the current value at the
action's path and the action's payload returns a value
reference-identical to that current value, both reducers return the
input top-level state object itself, not a copy (part_001 lines
77-92, src/src/index.ts lines 184-198). -/
theorem claim_C4_noop_returns_input_state
    (st value : JVal) (t : String) (p : List String) (args : List JVal)
    (h : Handler) (fresh : Nat)
    (hlook : lookupPath p st = some value)
    (hsame : refEq value (h value args) = true) :
    reduce fresh st ⟨t, p, args, some h⟩ = some st ∧
    ixReduce fresh st ⟨t, p, args, some h⟩ = some st := by
  constructor
  · simp [reduce, hlook, hsame]
  · simp [ixReduce, hlook, hsame]

theorem claim_C4_witness :
    lookupPath ["foo"] (initialState wTree 0) = some (.prim "bar") ∧
    refEq (.prim "bar") (setHandler (.prim "bar") [.prim "bar"]) = true ∧
    (reduce 10 (initialState wTree 0) ⟨"foo.@@SET", ["foo"], [.prim "bar"], some setHandler⟩ =
        some (initialState wTree 0) ∧
      ixReduce 10 (initialState wTree 0) ⟨"foo.@@SET", ["foo"], [.prim "bar"], some setHandler⟩ =
        some (initialState wTree 0)) :=
  ⟨by simp [initialState, stateOfFields, wTree, wNode, lookupPath, indexKey, getField],
    by simp [refEq, setHandler],
    claim_C4_noop_returns_input_state (initialState wTree 0) (.prim "bar")
      "foo.@@SET" ["foo"] [.prim "bar"] setHandler 10
      (by simp [initialState, stateOfFields, wTree, wNode, lookupPath, indexKey, getField])
      (by simp [refEq, setHandler])⟩

/-- C8: for every state and every action object that does not carry
the internal handler marker — any plain external Redux action — both
reducers return the input state object reference-identical and
unchanged instead of raising an error or validating the action's
shape (part_001 lines 72-75, src/src/index.ts lines 179-182). -/
theorem claim_C8_unmarked_action_passthrough
    (st : JVal) (t : String) (p : List String) (args : List JVal) (fresh : Nat) :
    reduce fresh st ⟨t, p, args, none⟩ = some st ∧
    ixReduce fresh st ⟨t, p, args, none⟩ = some st :=
  ⟨rfl, rfl⟩

/-- C6: compiling the tree `{a: Node(v1), b: {c: Node(v2)}}` with
part_001's `createNodes` yields the initial state
`{a: v1, b: {c: v2}}`; the same tree fed to `createStore`
(src/src/index.ts) does not — its `traverseTree` recursion drops the
callback argument, so reaching the nested node applies the path array
as a function and the compile throws instead of producing a state
(modelled as `none`). -/
theorem claim_C6_initial_state_shape (v1 v2 : JVal) (a1 a2 : List (String × Handler)) (n : Nat) :
    initialState
        (.cons "a" (.node ⟨v1, a1⟩) (.cons "b" (.cons "c" (.node ⟨v2, a2⟩) .nil) .nil)) n =
      JVal.obj n [("a", v1), ("b", JVal.obj (n + 1) [("c", v2)])] ∧
    ixInitialState
        (.cons "a" (.node ⟨v1, a1⟩) (.cons "b" (.cons "c" (.node ⟨v2, a2⟩) .nil) .nil)) = none := by
  constructor
  · simp [initialState, stateOfFields]
  · simp [ixInitialState, ixBuildFields]

/-- C10: the prebuilt `num` node's `decrement` handler computes
`val + by` with `by` defaulting to `-1`: with no argument it
decreases the value by one, but an explicit argument `n` is added, so
an explicit positive `n` increases the value
(src/src/nodes.ts line 21). -/
theorem claim_C10_decrement_adds_argument (val : Int) :
    numDecrement val none = val - 1 ∧
    (∀ n : Int, numDecrement val (some n) = val + n) ∧
    (∀ n : Int, 0 < n → val < numDecrement val (some n)) := by
  refine ⟨?_, fun n => rfl, fun n hn => ?_⟩
  · show val + (-1) = val - 1
    omega
  · show val < val + n
    omega

theorem claim_C10_witness :
    numDecrement 5 none = 5 - 1 ∧
    numDecrement 5 (some 3) = 5 + 3 ∧
    (0 < (3 : Int) ∧ 5 < numDecrement 5 (some 3)) :=
  ⟨(claim_C10_decrement_adds_argument 5).1,
    (claim_C10_decrement_adds_argument 5).2.1 3,
    by decide,
    (claim_C10_decrement_adds_argument 5).2.2 3 (by decide)⟩

/-- A present element is found by `indexOf` at its first occurrence:
the index is in range and the list from that index onwards starts
with the element. -/
theorem jsIndexOf_mem {α : Type _} [DecidableEq α] :
    ∀ (l : List α) (x : α), x ∈ l →
      ∃ j : Nat, jsIndexOf l x = (j : Int) ∧ j < l.length ∧
        l.drop j = x :: l.drop (j + 1)
  | [], x, hx => absurd hx (by simp)
  | a :: rest, x, hx => by
    by_cases ha : a = x
    · exact ⟨0, by simp [jsIndexOf, ha], by simp, by simp [ha]⟩
    · have hxr : x ∈ rest := by
        cases hx with
        | head => exact absurd rfl ha
        | tail _ h => exact h
      obtain ⟨j, hj, hlen, hdrop⟩ := jsIndexOf_mem rest x hxr
      refine ⟨j + 1, ?_, by simpa using hlen, by simpa using hdrop⟩
      rw [jsIndexOf, if_neg ha, hj, if_neg (by omega)]
      push_cast
      ring

/-- An absent element yields `indexOf = -1`. -/
theorem jsIndexOf_not_mem {α : Type _} [DecidableEq α] :
    ∀ (l : List α) (x : α), x ∉ l → jsIndexOf l x = -1
  | [], _, _ => rfl
  | a :: rest, x, hx => by
    have ha : a ≠ x := fun h => hx (h ▸ List.mem_cons_self a rest)
    have hr : x ∉ rest := fun h => hx (List.mem_cons_of_mem a h)
    rw [jsIndexOf, if_neg ha, jsIndexOf_not_mem rest x hr, if_pos (by omega)]

/-- C9: the prebuilt `list` node's `remove` handler evaluates to the
return value of `Array.prototype.splice` — the array of removed
elements: for a list containing the item it is the one-element array
holding that item, and for a non-empty list not containing the item
(`indexOf` gives `-1`, which splices from the end) it is the
one-element array holding the last element — never the list with the
item removed (src/src/nodes.ts line 46). -/
theorem claim_C9_list_remove_returns_removed_elements
    {α : Type} [DecidableEq α] (l : List α) (i : α) :
    (i ∈ l → listRemove l i = [i]) ∧
    (∀ (h : l ≠ []), i ∉ l → listRemove l i = [l.getLast h]) := by
  constructor
  · intro hmem
    obtain ⟨j, hj, hlen, hdrop⟩ := jsIndexOf_mem l i hmem
    rw [listRemove, hj]
    have hs : jsSpliceStart l.length (j : Int) = j := by
      rw [jsSpliceStart, if_neg (by omega)]
      simp
      omega
    rw [jsSpliceRemoved, hs, hdrop]
    have h1 : min 1 (l.length - j) = 1 := by omega
    rw [h1]
    rfl
  · intro hne hnm
    rw [listRemove, jsIndexOf_not_mem l i hnm]
    have hlen : 1 ≤ l.length := by
      cases l with
      | nil => exact absurd rfl hne
      | cons a rest => simp
    have hs : jsSpliceStart l.length (-1) = l.length - 1 := by
      rw [jsSpliceStart, if_pos (by omega)]
      omega
    rw [jsSpliceRemoved, hs]
    have h1 : min 1 (l.length - (l.length - 1)) = 1 := by omega
    rw [h1]
    have hdrop : l.drop (l.length - 1) = [l.getLast hne] := by
      clear hnm h1 hs
      induction l with
      | nil => exact absurd rfl hne
      | cons a rest ih =>
        cases rest with
        | nil => simp
        | cons b rest' =>
          have := ih (by simp)
          simpa [List.getLast] using this
    rw [hdrop]
    rfl

/-- C5 counterexample: for the node at path `[x, y, z]` with action
`w`, the generated action creator's `type` is `x.y.z.@@W` — the
action name is prefixed with `@@` and uppercased (part_001 line 63) —
and therefore not `x.y.z.w` as the claim states. -/
theorem claim_C5_counterexample :
    creatorsAt (actionsOf c5Tree) ["x", "y", "z"] = some (nodeCreators c5Node ["x", "y", "z"]) ∧
    assocGet (nodeCreators c5Node ["x", "y", "z"]) "w" =
      some (mkCreator ["x", "y", "z"] "w" setHandler) ∧
    (mkCreator ["x", "y", "z"] "w" setHandler []).type = "x.y.z.@@W" ∧
    (mkCreator ["x", "y", "z"] "w" setHandler []).type ≠ "x.y.z.w" :=
  ⟨rfl, rfl, rfl, by decide⟩

/-- C5 (amended): for every node at path `[x, y, z]` declaring an
action named `w`, the generated action creator's `type` string is the
path keys joined in declared order by the separator `.` followed by
the separator and the marked action name `@@` + `w` uppercased, i.e.
`x.y.z.@@W` (part_001 lines 60-71). -/
theorem claim_C5_amended_action_type
    (ts : TreeT) (x y z w : String) (nd : NodeDef) (h : Handler)
    (hnode : nodeAt ts [x, y, z] = some nd)
    (hact : assocGet nd.actions w = some h) :
    creatorsAt (actionsOf ts) [x, y, z] = some (nodeCreators nd [x, y, z]) ∧
    assocGet (nodeCreators nd [x, y, z]) w = some (mkCreator [x, y, z] w h) ∧
    ∀ args : List JVal, (mkCreator [x, y, z] w h args).type =
      x ++ "." ++ y ++ "." ++ z ++ "." ++ "@@" ++ upperStr w := by
  refine ⟨?_, ?_, ?_⟩
  · show creatorsAt (actionsOfFields [] ts) [x, y, z] = _
    rw [creatorsAt_actionsOfFields [x, y, z] ts [] (by simp), hnode]
    simp
  · rw [assocGet_nodeCreators, hact]
    rfl
  · intro args
    show actionTypeOf [x, y, z] w = _
    simp only [actionTypeOf, joinDot, List.cons_append, List.nil_append,
      String.append_assoc]

theorem claim_C5_amended_witness :
    nodeAt c5Tree ["x", "y", "z"] = some c5Node ∧
    assocGet c5Node.actions "w" = some setHandler ∧
    (creatorsAt (actionsOf c5Tree) ["x", "y", "z"] = some (nodeCreators c5Node ["x", "y", "z"]) ∧
      assocGet (nodeCreators c5Node ["x", "y", "z"]) "w" =
        some (mkCreator ["x", "y", "z"] "w" setHandler) ∧
      ∀ args : List JVal, (mkCreator ["x", "y", "z"] "w" setHandler args).type =
        "x" ++ "." ++ "y" ++ "." ++ "z" ++ "." ++ "@@" ++ upperStr "w") :=
  ⟨rfl, rfl,
    claim_C5_amended_action_type c5Tree "x" "y" "z" "w" c5Node setHandler rfl rfl⟩

/-- Looking an action name up in a buildNodes node's creator mapping
yields the generated creator for that name. -/
theorem rAssocGet_nodeCreators (nd : RNode) (path : List String) (w : String) :
    assocGet (rNodeCreators nd path) w =
      (assocGet nd.actions w).map (fun h => mkCreatorR path w h) := by
  show assocGet (nd.actions.map (fun kv => (kv.1, mkCreatorR path kv.1 kv.2))) w = _
  induction nd.actions with
  | nil => simp [assocGet]
  | cons kv rest ih =>
    obtain ⟨k1, h1⟩ := kv
    by_cases hk : k1 = w
    · subst hk
      simp [assocGet]
    · simp [assocGet, hk, ih]

/-- C7: compiling a tree that is itself a single bare Node produces
an initial state equal to the node's value directly — no wrapping
object — and every generated action type is just the action name,
with no path prefix and no leading separator (spec sections 4.1 and
4.3; the buildNodes source is absent from src/, so this is settled
against the spec-modelled definitions). -/
theorem claim_C7_bare_node_tree
    (nd : RNode) (n : Nat) (w : String) (h : Handler)
    (hact : assocGet nd.actions w = some h) :
    (bStateOf n (.node nd)).1 = nd.value ∧
    rCreatorsAt (.node nd) [] = some (rNodeCreators nd []) ∧
    assocGet (rNodeCreators nd []) w = some (mkCreatorR [] w h) ∧
    ∀ args : List JVal, (mkCreatorR [] w h args).type = w := by
  refine ⟨rfl, rfl, ?_, fun args => rfl⟩
  rw [rAssocGet_nodeCreators, hact]
  rfl

theorem claim_C7_witness :
    assocGet wRNode.actions "changeBar" = some setHandler ∧
    ((bStateOf 0 (.node wRNode)).1 = wRNode.value ∧
      rCreatorsAt (.node wRNode) [] = some (rNodeCreators wRNode []) ∧
      assocGet (rNodeCreators wRNode []) "changeBar" =
        some (mkCreatorR [] "changeBar" setHandler) ∧
      ∀ args : List JVal, (mkCreatorR [] "changeBar" setHandler args).type = "changeBar") :=
  ⟨rfl, claim_C7_bare_node_tree wRNode 0 "changeBar" setHandler rfl⟩

/-- C3: for every tree containing a node that declares a whole-action
reducer — at any position of the flattened `{path, reducerFn}` list —
and for every dispatched action, with or without the internal handler
marker (so including an action produced by a different node's action
creator and plain external actions), the compiled dispatch reducer
invokes that node's whole-action reducer with the current value at
the node's path (the state as left by the preceding steps) and the
full action object, and the node's sub-state becomes the reducer's
result whenever that result is not reference-identical to the current
value (spec sections 4.1 and 4.3; the buildNodes source is absent
from src/, so this is settled against the spec-modelled
definitions). -/
theorem claim_C3_whole_reducer_invoked_on_every_action
    (t : TreeR) (rs1 rs2 : List (List String × WholeReducer))
    (p : List String) (r : WholeReducer)
    (st st1 st2 v : JVal) (a : ActionPayload) (fresh n2 : Nat)
    (hcollect : collectReducers [] t = rs1 ++ (p, r) :: rs2)
    (hown : specOwnStep fresh st a = some st1)
    (hpre : List.foldl (applyWholeStep a) (some st1, fresh + a.path.length + 1) rs1 =
      (some st2, n2))
    (hlook : lookupPath p st2 = some v) :
    ∃ st3 : JVal,
      specUpdate n2 st2 p (fun x => r x a) = some st3 ∧
      specDispatch fresh (collectReducers [] t) st a =
        (List.foldl (applyWholeStep a) (some st3, n2 + p.length + 1) rs2).1 ∧
      (refEq v (r v a) = true → st3 = st2) ∧
      (refEq v (r v a) = false → lookupPath p st3 = some (r v a)) := by
  have hstep : ∃ st3 : JVal,
      specUpdate n2 st2 p (fun x => r x a) = some st3 ∧
      (refEq v (r v a) = true → st3 = st2) ∧
      (refEq v (r v a) = false → lookupPath p st3 = some (r v a)) := by
    cases hch : refEq v (r v a) with
    | true =>
      refine ⟨st2, ?_, fun _ => rfl, fun hf => by simp [hch] at hf⟩
      simp [specUpdate, hlook, hch]
    | false =>
      cases p with
      | nil =>
        have hv : st2 = v := by simpa [lookupPath] using hlook
        subst hv
        refine ⟨r st2 a, ?_, fun ht => by simp [hch] at ht, fun _ => rfl⟩
        simp [specUpdate, lookupPath, hch]
      | cons k rest =>
        obtain ⟨st3, hsp, hlk⟩ :=
          splicePath_lookup (k :: rest) st2 v (r v a) n2 (by simp) hlook
        refine ⟨st3, ?_, fun ht => by simp [hch] at ht, fun _ => hlk⟩
        simp [specUpdate, hlook, hch, hsp]
  obtain ⟨st3, hupd, h1, h2⟩ := hstep
  refine ⟨st3, hupd, ?_, h1, h2⟩
  simp only [specDispatch]
  rw [hcollect, hown, List.foldl_append, hpre, List.foldl_cons]
  show (List.foldl (applyWholeStep a)
      (specUpdate n2 st2 p (fun x => r x a), n2 + p.length + 1) rs2).1 = _
  rw [hupd]

/-- The concrete C3 scenario: the tree
`{foo: node with a set action, other: node with a whole-action
reducer}`, and the action dispatched is the one created by `foo`'s
own action creator — a different node than the one whose whole-action
reducer fires. -/
theorem claim_C3_witness :
    collectReducers []
        (.cons "foo" (.node ⟨.prim "bar", [("set", setHandler)], none⟩)
          (.cons "other" (.node ⟨.prim "b0", [], some wWholeReducer⟩) .nil)) =
      [] ++ (["other"], wWholeReducer) :: [] ∧
    specOwnStep 10 (JVal.obj 0 [("foo", .prim "bar"), ("other", .prim "b0")])
        (mkCreatorR ["foo"] "set" setHandler [.prim "A2"]) =
      some (JVal.obj 10 [("foo", .prim "A2"), ("other", .prim "b0")]) ∧
    List.foldl (applyWholeStep (mkCreatorR ["foo"] "set" setHandler [.prim "A2"]))
        (some (JVal.obj 10 [("foo", .prim "A2"), ("other", .prim "b0")]),
          10 + (mkCreatorR ["foo"] "set" setHandler [.prim "A2"]).path.length + 1) [] =
      (some (JVal.obj 10 [("foo", .prim "A2"), ("other", .prim "b0")]), 12) ∧
    lookupPath ["other"] (JVal.obj 10 [("foo", .prim "A2"), ("other", .prim "b0")]) =
      some (.prim "b0") ∧
    ∃ st3 : JVal,
      specUpdate 12 (JVal.obj 10 [("foo", .prim "A2"), ("other", .prim "b0")]) ["other"]
        (fun x => wWholeReducer x (mkCreatorR ["foo"] "set" setHandler [.prim "A2"])) =
        some st3 ∧
      specDispatch 10
          (collectReducers []
            (.cons "foo" (.node ⟨.prim "bar", [("set", setHandler)], none⟩)
              (.cons "other" (.node ⟨.prim "b0", [], some wWholeReducer⟩) .nil)))
          (JVal.obj 0 [("foo", .prim "bar"), ("other", .prim "b0")])
          (mkCreatorR ["foo"] "set" setHandler [.prim "A2"]) =
        (List.foldl (applyWholeStep (mkCreatorR ["foo"] "set" setHandler [.prim "A2"]))
          (some st3, 12 + (["other"] : List String).length + 1) []).1 ∧
      (refEq (.prim "b0")
          (wWholeReducer (.prim "b0") (mkCreatorR ["foo"] "set" setHandler [.prim "A2"])) =
            true →
        st3 = JVal.obj 10 [("foo", .prim "A2"), ("other", .prim "b0")]) ∧
      (refEq (.prim "b0")
          (wWholeReducer (.prim "b0") (mkCreatorR ["foo"] "set" setHandler [.prim "A2"])) =
            false →
        lookupPath ["other"] st3 =
          some (wWholeReducer (.prim "b0") (mkCreatorR ["foo"] "set" setHandler [.prim "A2"]))) :=
  ⟨rfl, rfl, rfl, rfl,
    claim_C3_whole_reducer_invoked_on_every_action
      (.cons "foo" (.node ⟨.prim "bar", [("set", setHandler)], none⟩)
        (.cons "other" (.node ⟨.prim "b0", [], some wWholeReducer⟩) .nil))
      [] [] ["other"] wWholeReducer
      (JVal.obj 0 [("foo", .prim "bar"), ("other", .prim "b0")])
      (JVal.obj 10 [("foo", .prim "A2"), ("other", .prim "b0")])
      (JVal.obj 10 [("foo", .prim "A2"), ("other", .prim "b0")])
      (.prim "b0") (mkCreatorR ["foo"] "set" setHandler [.prim "A2"]) 10 12
      rfl rfl rfl rfl⟩

theorem claim_C9_witness :
    (2 ∈ [1, 2, 3] ∧ listRemove [1, 2, 3] 2 = [2]) ∧
    (([1, 2, 3] : List Nat) ≠ [] ∧ 7 ∉ [1, 2, 3] ∧
      listRemove [1, 2, 3] 7 = [([1, 2, 3] : List Nat).getLast (by decide)]) :=
  ⟨⟨by decide, (claim_C9_list_remove_returns_removed_elements [1, 2, 3] 2).1 (by decide)⟩,
    ⟨by decide, by decide,
      (claim_C9_list_remove_returns_removed_elements [1, 2, 3] 7).2 (by decide) (by decide)⟩⟩

end ReduxNodes
